/-
Verification of the hata repository's channel-metadata conversion code and
command framework, as a shallow embedding in Lean 4.

Sources embedded:
- src/hata/discord/channel/metadata/guild_forum.py (ChannelMetadataGuildForum)
- src/hata/ext/commands/command.py (Command, Category, CommandProcesser)

Machine integers are modelled as Nat (Python ints are unbounded, so no
wrap-around is needed); Python `None`-able values are modelled as Option;
Python dicts keyed by strings are modelled as association lists; functions
that can raise are modelled with Except.
-/
import Mathlib

namespace Hata

/-! # Part 1: `ChannelMetadataGuildForum` (src/hata/discord/channel/metadata/guild_forum.py)

The class inherits from `ChannelMetadataGuildMainBase` (file `guild_main_base.py`,
not part of the sources at hand); the base attributes are documented in the
forum class's own docstring: `parent_id`, `name`, `permission_overwrites`,
`position` (`_permission_cache` is a cache and takes no part in equality or
serialization). The field codecs `parse_*` live in `channel/fields/*` (also not
at hand, except for the test of `parse_available_tags`); they are modelled from
the spec's description of field codecs, pinned where possible by
`_to_data`'s own output format and by the test
`test__parse_available_tags` (missing/`None`/`[]` all parse to `None`).
-/

/-- Modelled from the spec: a forum tag entity (`ForumTag`, not under the
sources at hand). Its `to_data`/parse pair is an exact codec, so the wire form
is identified with the entity itself. -/
structure ForumTag where
  id : Nat
  name : String
deriving DecidableEq, Repr

/-- The wire-JSON payload of a guild forum channel, restricted to the keys that
`ChannelMetadataGuildForum._to_data` emits (base keys included). Nullable JSON
values are `Option`; `default_auto_archive_duration` is in minutes on the wire. -/
structure ChannelData where
  parent_id : Nat
  name : String
  permission_overwrites : List (Nat × Nat)
  position : Nat
  available_tags : List ForumTag
  default_auto_archive_duration : Nat
  default_reaction_emoji : Option Nat
  default_thread_rate_limit_per_user : Option Nat
  flags : Nat
  topic : Option String
deriving DecidableEq, Repr

/-- In-memory state of `ChannelMetadataGuildForum`: the four base attributes
(documented in the class docstring) plus the six slots declared by the class.
Emojis are represented by their id. -/
structure ChannelMetadataGuildForum where
  parent_id : Nat
  name : String
  permission_overwrites : List (Nat × Nat)
  position : Nat
  available_tags : Option (List ForumTag)
  default_thread_auto_archive_after : Nat
  default_thread_reaction : Option Nat
  default_thread_slowmode : Nat
  flags : Nat
  topic : Option String
deriving DecidableEq, Repr

/-- Embeds `AUTO_ARCHIVE_DEFAULT` from `channel/constants.py`: the documented default
of `default_thread_auto_archive_after` (seconds). -/
def AUTO_ARCHIVE_DEFAULT : Nat := 3600

/-- Embeds `parse_available_tags`: per the test `test__parse_available_tags`, a
missing, `None` or empty tag array parses to `None`, a non-empty one to the
tuple of its tags. -/
def parse_available_tags (data : ChannelData) : Option (List ForumTag) :=
  if data.available_tags.isEmpty then none else some data.available_tags

/-- Modelled from the spec: `parse_default_thread_auto_archive_after` field
codec (`channel/fields/default_thread_auto_archive_after.py`, not at hand).
The wire key `default_auto_archive_duration` holds minutes (see `_to_data`
which emits `default_thread_auto_archive_after // 60`), the attribute holds
seconds. -/
def parse_default_thread_auto_archive_after (data : ChannelData) : Nat :=
  60 * data.default_auto_archive_duration

/-- Modelled from the spec: `parse_default_thread_reaction` field codec
(`channel/fields/default_thread_reaction.py`, not at hand): nullable emoji,
inverse of `put_exclusive_emoji_data_into` used by `_to_data`. -/
def parse_default_thread_reaction (data : ChannelData) : Option Nat :=
  data.default_reaction_emoji

/-- Modelled from the spec: `parse_default_thread_slowmode` field codec
(`channel/fields/default_thread_slowmode.py`, not at hand): a `null` wire value
parses to `0` (matching `_to_data`, which emits `None` for `0`). -/
def parse_default_thread_slowmode (data : ChannelData) : Nat :=
  data.default_thread_rate_limit_per_user.getD 0

/-- Modelled from the spec: `parse_flags` field codec
(`channel/fields/flags.py`, not at hand): the flags integer as-is. -/
def parse_flags (data : ChannelData) : Nat :=
  data.flags

/-- Modelled from the spec: `parse_topic` field codec
(`channel/fields/topic.py`, not at hand): nullable string as-is. -/
def parse_topic (data : ChannelData) : Option String :=
  data.topic

/-- Modelled from the spec: `ChannelMetadataGuildMainBase._create_empty`
(`guild_main_base.py`, not at hand) zeroes the base attributes; the forum
override (source lines 100-112) then sets its own six slots. -/
def ChannelMetadataGuildForum.create_empty : ChannelMetadataGuildForum where
  parent_id := 0
  name := ""
  permission_overwrites := []
  position := 0
  available_tags := none
  default_thread_auto_archive_after := AUTO_ARCHIVE_DEFAULT
  default_thread_reaction := none
  default_thread_slowmode := 0
  flags := 0
  topic := none

/-- Embeds `ChannelMetadataGuildForum._update_attributes` (source lines 115-135):
the base call sets the base attributes from the data (base modelled from the
spec), then every forum attribute is set from its parse function. The receiver
is fully overwritten, so the result depends on the data alone. -/
def ChannelMetadataGuildForum.update_attributes
    (_self : ChannelMetadataGuildForum) (data : ChannelData) :
    ChannelMetadataGuildForum where
  parent_id := data.parent_id
  name := data.name
  permission_overwrites := data.permission_overwrites
  position := data.position
  available_tags := parse_available_tags data
  default_thread_auto_archive_after := parse_default_thread_auto_archive_after data
  default_thread_reaction := parse_default_thread_reaction data
  default_thread_slowmode := parse_default_thread_slowmode data
  flags := parse_flags data
  topic := parse_topic data

/-- Embeds `ChannelMetadataGuildForum._to_data` (source lines 279-314): the base data
(modelled from the spec) plus the six forum keys; `None` tags become `[]`,
the auto-archive seconds become minutes by floor division, a `0` slowmode
becomes `null`. -/
def ChannelMetadataGuildForum.to_data (self : ChannelMetadataGuildForum) :
    ChannelData where
  parent_id := self.parent_id
  name := self.name
  permission_overwrites := self.permission_overwrites
  position := self.position
  available_tags := self.available_tags.getD []
  default_auto_archive_duration := self.default_thread_auto_archive_after / 60
  default_reaction_emoji := self.default_thread_reaction
  default_thread_rate_limit_per_user :=
    if self.default_thread_slowmode = 0 then none else some self.default_thread_slowmode
  flags := self.flags
  topic := self.topic

/-- Embeds `ChannelMetadataGuildForum._is_equal_same_type` (source lines 63-92): the
base comparison (modelled from the spec: the four base attributes) and then the
six forum attributes in source order. -/
def ChannelMetadataGuildForum.is_equal_same_type
    (self other : ChannelMetadataGuildForum) : Bool :=
  self.parent_id == other.parent_id &&
  self.name == other.name &&
  self.permission_overwrites == other.permission_overwrites &&
  self.position == other.position &&
  self.available_tags == other.available_tags &&
  self.default_thread_auto_archive_after == other.default_thread_auto_archive_after &&
  self.default_thread_reaction == other.default_thread_reaction &&
  self.default_thread_slowmode == other.default_thread_slowmode &&
  self.flags == other.flags &&
  self.topic == other.topic

/-- The `old_attributes` dict returned by `_difference_update_attributes`:
one optional entry per attribute, `none` meaning the key is absent. -/
structure OldAttributes where
  parent_id : Option Nat
  name : Option String
  permission_overwrites : Option (List (Nat × Nat))
  position : Option Nat
  available_tags : Option (Option (List ForumTag))
  default_thread_auto_archive_after : Option Nat
  default_thread_reaction : Option (Option Nat)
  default_thread_slowmode : Option Nat
  flags : Option Nat
  topic : Option (Option String)
deriving DecidableEq, Repr

/-- Embeds `ChannelMetadataGuildForum._difference_update_attributes` (source lines
138-178): for each attribute the parsed value is compared with the current one;
on difference the old value is recorded and the attribute replaced (the base
attributes are handled the same way by the base call, modelled from the spec).
Returns the old-attributes dict together with the updated object. -/
def ChannelMetadataGuildForum.difference_update_attributes
    (self : ChannelMetadataGuildForum) (data : ChannelData) :
    OldAttributes × ChannelMetadataGuildForum :=
  let new := self.update_attributes data
  ({ parent_id := if self.parent_id = new.parent_id then none else some self.parent_id
     name := if self.name = new.name then none else some self.name
     permission_overwrites :=
       if self.permission_overwrites = new.permission_overwrites then none
       else some self.permission_overwrites
     position := if self.position = new.position then none else some self.position
     available_tags :=
       if self.available_tags = new.available_tags then none else some self.available_tags
     default_thread_auto_archive_after :=
       if self.default_thread_auto_archive_after = new.default_thread_auto_archive_after
       then none else some self.default_thread_auto_archive_after
     default_thread_reaction :=
       if self.default_thread_reaction = new.default_thread_reaction then none
       else some self.default_thread_reaction
     default_thread_slowmode :=
       if self.default_thread_slowmode = new.default_thread_slowmode then none
       else some self.default_thread_slowmode
     flags := if self.flags = new.flags then none else some self.flags
     topic := if self.topic = new.topic then none else some self.topic },
   new)

/-! ## Permissions (`_get_permissions_for`, `_get_permissions_for_roles`) -/

/-- Embeds `PERMISSION_NONE` from `discord/permission/permission.py` (not at hand):
the empty permission. -/
def PERMISSION_NONE : Nat := 0

/-- Modelled from the spec: `PERMISSION_MASK_VIEW_CHANNEL` from
`discord/permission/permission.py` (not at hand): the mask of the
view-channel permission bit (bit 10 of the platform's permission word). -/
def PERMISSION_MASK_VIEW_CHANNEL : Nat := 1 <<< 10

/-- Modelled from the spec: the indices of the thread- and voice-related
permission bits (priority-speaker, stream, connect, speak, mute/deafen/move
members, use-voice-activation, request-to-speak and the thread permissions),
from the permission table of `discord/permission/permission.py` (not at hand). -/
def THREAD_AND_VOICE_BITS : List Nat := [8, 9, 20, 21, 22, 23, 24, 25, 32, 34, 35, 36, 38]

/-- Modelled from the spec: the full permission word (all bits of the 64-bit
permission integer). -/
def PERMISSION_ALL : Nat := 2 ^ 64 - 1

/-- Modelled from the spec: `PERMISSION_THREAD_AND_VOICE_DENY` from
`discord/permission/permission.py` (not at hand): the mask keeping every
permission except the thread- and voice-related ones. -/
def PERMISSION_THREAD_AND_VOICE_DENY : Nat :=
  PERMISSION_ALL ^^^ (THREAD_AND_VOICE_BITS.foldr (fun b acc => acc ||| (1 <<< b)) 0)

/-- Embeds `ChannelMetadataGuildForum._get_permissions_for` (source lines 181-191), as
a function of the base permissions computed by `_get_base_permissions_for`
(the base computation lives in `guild_main_base.py`, not at hand, so the
result is taken as input): no view-channel bit means no permissions at all,
otherwise the thread- and voice-related bits are masked away. -/
def ChannelMetadataGuildForum.get_permissions_for (basePermissions : Nat) : Nat :=
  if basePermissions &&& PERMISSION_MASK_VIEW_CHANNEL = 0 then PERMISSION_NONE
  else basePermissions &&& PERMISSION_THREAD_AND_VOICE_DENY

/-- Embeds `ChannelMetadataGuildForum._get_permissions_for_roles` (source lines
193-201): identical masking over the role-based base permissions. -/
def ChannelMetadataGuildForum.get_permissions_for_roles (basePermissions : Nat) : Nat :=
  if basePermissions &&& PERMISSION_MASK_VIEW_CHANNEL = 0 then PERMISSION_NONE
  else basePermissions &&& PERMISSION_THREAD_AND_VOICE_DENY

/-! # Part 2: the command framework (src/hata/ext/commands/command.py)

Identity (`is`) comparisons of the Python objects are modelled by numeric
object ids: distinct objects carry distinct ids, `x is y` becomes equality of
ids, and `None` handlers are `Option.none`. Handlers and checks are opaque
callables, so they are represented by their object id alone; a check's
behaviour on the one `(client, message)` pair of an invocation is represented
by the fail identificator it returns there. -/

/-! ## `Command.__call__`, check phase (C2) -/

/-- Outcome of the check phase of `Command.__call__`: either control reaches the
dispatch section (source lines 702-718) where the wrapped handler is invoked,
or the call returns `1`, or the command's `check_failure_handler` (given by
object id) is awaited with the failing check's fail identificator. -/
inductive CheckPhaseOutcome
  | dispatched
  | returnedOne
  | checkFailure (handler : Nat) (failIdentificator : Int)
deriving DecidableEq, Repr

/-- One check chain of `Command.__call__` (source lines 670-700): each check is
represented by the fail identificator it returns. `-2` continues, `-1` returns
`1`, any other value uses the command's `check_failure_handler`, or returns `1`
when that is `None`. Returns the outcome (`none` when the whole chain passed)
and the number of checks evaluated. -/
def evalCheckChain (checks : List Int) (checkFailureHandler : Option Nat) :
    Option CheckPhaseOutcome × Nat :=
  match checks with
  | [] => (none, 0)
  | c :: rest =>
    if c = -2 then
      let r := evalCheckChain rest checkFailureHandler
      (r.1, r.2 + 1)
    else if c = -1 then (some .returnedOne, 1)
    else
      match checkFailureHandler with
      | none => (some .returnedOne, 1)
      | some h => (some (.checkFailure h c), 1)

/-- The check phase of `Command.__call__` (source lines 669-701): the
category's check chain runs first, then the command's own chain; each chain is
`None` or a list, and both use the command's own `_check_failure_handler`.
Returns the outcome together with the total number of checks evaluated. -/
def commandCallChecks (categoryChecks ownChecks : Option (List Int))
    (checkFailureHandler : Option Nat) : CheckPhaseOutcome × Nat :=
  let r₁ := evalCheckChain (categoryChecks.getD []) checkFailureHandler
  match r₁.1 with
  | some o => (o, r₁.2)
  | none =>
    let r₂ := evalCheckChain (ownChecks.getD []) checkFailureHandler
    match r₂.1 with
    | some o => (o, r₁.2 + r₂.2)
    | none => (.dispatched, r₁.2 + r₂.2)

/-! ## `Category` and the command registry (C3, C6, C7, C9) -/

/-- A `Command` object as stored by the registry: its identity, lowercased
canonical `name`, `_alters` (all `-`/`_` separator variants of the name and the
aliases, the name itself included), `_category_hint`, the identity of the
`Category` object held in its `category` attribute (`none` for `None`), and
the identity of its `_check_failure_handler`. -/
structure CommandObj where
  id : Nat
  name : String
  alters : List String
  categoryHint : Option String
  categoryId : Option Nat
  checkFailureHandler : Option Nat
deriving DecidableEq, Repr

/-- A `Category` object (source lines 1272-1303): its identity, `name`
(`None`-able), `_check_failure_handler` identity and its sorted command list
(the `sortedlist` ordering plays no role in the claims, so a plain list is
kept). -/
structure Category where
  id : Nat
  name : Option String
  checkFailureHandler : Option Nat
  commands : List CommandObj
deriving DecidableEq, Repr

/-- Embeds `Category._set_check_failure_handler` (source lines 1337-1347): store the
new handler and re-point every command whose handler `is` the category's
previous one. (`check_argcount_and_convert` only validates/wraps the callable
and is modelled as the identity on the handler's identity.) -/
def Category.setCheckFailureHandler (self : Category) (handler : Option Nat) :
    Category :=
  let actual := self.checkFailureHandler
  { self with
    checkFailureHandler := handler
    commands := self.commands.map fun c =>
      if c.checkFailureHandler = actual then { c with checkFailureHandler := handler } else c }

/-- Embeds `Category._del_check_failure_handler` (source lines 1349-1358): a no-op
when the category has no handler, otherwise clear it and clear every command
whose handler `is` the category's previous one. -/
def Category.delCheckFailureHandler (self : Category) : Category :=
  match self.checkFailureHandler with
  | none => self
  | some _ =>
    { self with
      checkFailureHandler := none
      commands := self.commands.map fun c =>
        if c.checkFailureHandler = self.checkFailureHandler then
          { c with checkFailureHandler := none }
        else c }

/-- Python's `str.lower` on an ASCII character: map `A`-`Z` to `a`-`z`. -/
def lowerChar (c : Char) : Char :=
  if 65 ≤ c.toNat ∧ c.toNat ≤ 90 then Char.ofNat (c.toNat + 32) else c

/-- Python's `str.lower`, over the characters. -/
def strToLower (s : String) : String := ⟨s.data.map lowerChar⟩

/-- Dropping a number of leading characters of a string. -/
def strDrop (s : String) (n : Nat) : String := ⟨s.data.drop n⟩

/-- The longest satisfying leading run of a string. -/
def strTakeWhile (p : Char → Bool) (s : String) : String := ⟨s.data.takeWhile p⟩

/-- A string without its longest satisfying leading run. -/
def strDropWhile (p : Char → Bool) (s : String) : String := ⟨s.data.dropWhile p⟩

/-- Whether a string starts with another, over the characters. -/
def strIsPrefixOf (p s : String) : Bool := p.data.isPrefixOf s.data

/-- Whether a character is an ASCII digit. -/
def isDigitChar (c : Char) : Bool := 48 ≤ c.toNat && c.toNat ≤ 57

/-- Python's `<` on strings: lexicographic comparison of the code points. -/
def charListLT : List Char → List Char → Bool
  | [], [] => false
  | [], _ :: _ => true
  | _ :: _, [] => false
  | a :: as, b :: bs =>
    if a.toNat < b.toNat then true
    else if b.toNat < a.toNat then false
    else charListLT as bs

/-- Python's `s1 < s2` on strings, over the characters. -/
def strLT (a b : String) : Bool := charListLT a.data b.data

/-- Python's `s1 <= s2` on strings: the negation of `s2 < s1` under the total
lexicographic order. -/
def strLE (a b : String) : Bool := !(strLT b a)

/-- Embeds `Category.__gt__` (source lines 1375-1389): a `None` name is never greater;
a string name is greater than a `None` name; two string names compare by `>`. -/
def Category.gtCmp (self other : Category) : Bool :=
  match self.name, other.name with
  | none, _ => false
  | some _, none => true
  | some s, some o => strLT o s

/-- Embeds `Category.__lt__` (source lines 1452-1465): a `None` name is less than a
string name and not less than a `None` name; two string names compare by the
source's `self_name<=other_name`. -/
def Category.ltCmp (self other : Category) : Bool :=
  match self.name, other.name with
  | none, none => false
  | none, some _ => true
  | some _, none => false
  | some s, some o => strLE s o

/-- Embeds `Category.__ne__` (source lines 1421-1434): names differ (with `None` equal
only to `None`). -/
def Category.neCmp (self other : Category) : Bool :=
  match self.name, other.name with
  | none, none => false
  | none, some _ => true
  | some _, none => true
  | some s, some o => s != o

/-- The state of a `CommandProcesser` relevant to its category and command
registry: `_default_category_name`, `categories` and the `commands` dict
(alternative name, command object). -/
structure ProcesserState where
  defaultCategoryName : Option String
  categories : List Category
  commands : List (String × CommandObj)
deriving DecidableEq, Repr

/-- Embeds `CommandProcesser._get_category_key` (source lines 1552-1558): a category's
search key, its name with `None` read as `''`. -/
def categoryKeyOf (c : Category) : String := c.name.getD ""

/-- The category-name normalization performed by `get_category` (source lines
1527-1544): `None` and `''` both stand for the default category's name, itself
read as `''` when `None`. -/
def normalizeCategoryName (s : ProcesserState) (categoryName : Option String) :
    String :=
  match categoryName with
  | none => s.defaultCategoryName.getD ""
  | some n => if n = "" then s.defaultCategoryName.getD "" else n

/-- Embeds `CommandProcesser.get_category` (source lines 1527-1544): look the
normalized name up among the categories by key (the `sortedlist.get` binary
search coincides with a linear search on the key). -/
def getCategory (s : ProcesserState) (categoryName : Option String) :
    Option Category :=
  s.categories.find? fun c => categoryKeyOf c == normalizeCategoryName s categoryName

/-- Embeds `CommandProcesser.get_default_category` (source lines 1546-1550). -/
def getDefaultCategory (s : ProcesserState) : Option Category :=
  s.categories.find? fun c => categoryKeyOf c == s.defaultCategoryName.getD ""

/-- A fresh object id for a `Category` created inside the processer. -/
def freshCategoryId (s : ProcesserState) : Nat :=
  s.categories.foldr (fun c acc => max c.id acc) 0 + 1

/-- Embeds `CommandProcesser.__new__` (source lines 1504-1525): an empty default
category name is normalized to `None`; the registry starts with the default
category and no commands. -/
def newProcesser (defaultCategoryName : Option String) : ProcesserState :=
  let n := match defaultCategoryName with
           | some str => if str = "" then none else some str
           | none => none
  { defaultCategoryName := n
    categories := [{ id := 0, name := n, checkFailureHandler := none, commands := [] }]
    commands := [] }

/-- Python exception kinds raised by the registry operations. -/
inductive PyErr
  | valueError
  | attributeError
deriving DecidableEq, Repr

/-- Embeds `CommandProcesser.create_category` (source lines 1592-1599): `ValueError`
when a category answers to the (normalized) name, otherwise a new `Category`
carrying the name as given is added. -/
def createCategory (s : ProcesserState) (name : Option String)
    (checkFailureHandler : Option Nat) : Except PyErr ProcesserState :=
  match getCategory s name with
  | some _ => .error .valueError
  | none =>
    .ok { s with
          categories := s.categories ++
            [{ id := freshCategoryId s, name := name
               checkFailureHandler := checkFailureHandler, commands := [] }] }

/-- The argument accepted by `delete_category`: a name string, a `Category`
object, or `None`. -/
inductive CategoryRef
  | byName (name : String)
  | byObj (category : Category)
  | byNone
deriving DecidableEq, Repr

/-- The `categories.pop(category_name, key=...)` step of `delete_category`
(source lines 1616-1626) followed by the removal of the popped category's
commands from the `commands` dict. Popping with a `None` name is modelled as
finding nothing (a `None` value never equals a string key). -/
def popCategoryAndCleanCommands (s : ProcesserState) (categoryName : Option String) :
    ProcesserState :=
  match categoryName with
  | none => s
  | some key =>
    match s.categories.find? (fun c => categoryKeyOf c == key) with
    | none => s
    | some cat =>
      { s with
        categories := s.categories.eraseP (fun c => categoryKeyOf c == key)
        commands := s.commands.filter fun kv =>
          !(cat.commands.any fun cm => cm.alters.contains kv.1 && kv.2.id == cm.id) }

/-- Embeds `CommandProcesser.delete_category` (source lines 1601-1626): a string that
is empty or equals the default category name raises `ValueError`, `None`
raises `ValueError`, but a `Category` object is popped by its own name with no
default-category guard. -/
def deleteCategory (s : ProcesserState) (ref : CategoryRef) :
    Except PyErr ProcesserState :=
  match ref with
  | .byName n =>
    if n = "" then .error .valueError
    else if s.defaultCategoryName = some n then .error .valueError
    else .ok (popCategoryAndCleanCommands s (some n))
  | .byObj category => .ok (popCategoryAndCleanCommands s category.name)
  | .byNone => .error .valueError

/-- Assignment into the `commands` dict (`commands[alter] = command`,
source line 1806): replace the binding when the key is present, append it
otherwise. -/
def dictInsert (l : List (String × CommandObj)) (k : String) (v : CommandObj) :
    List (String × CommandObj) :=
  if l.any (fun kv => kv.1 == k) then
    l.map fun kv => if kv.1 == k then (k, v) else kv
  else l ++ [(k, v)]

/-- The category-resolution step of `CommandProcesser._add_command` (source
lines 1730-1748). `cmdCategory` is the incoming command's `category` attribute
(passed separately because the Lean structures are not recursive): when it is
set, `get_category(category.name)` must return that very object or
`ValueError` is raised; when it is `None`, the `_category_hint` (defaulted to
the processer's default category name) selects an existing category, or a
fresh unregistered one is built. Returns the resolved category and the
source's `category_added` flag. -/
def addCommandResolve (s : ProcesserState) (cmd : CommandObj)
    (cmdCategory : Option Category) : Except PyErr (Category × Bool) :=
  match cmdCategory with
  | some category =>
    match getCategory s category.name with
    | some owned =>
      if owned.id = category.id then .ok (owned, true) else .error .valueError
    | none => .error .valueError
  | none =>
    let categoryHint := match cmd.categoryHint with
                        | none => s.defaultCategoryName
                        | some h => some h
    match getCategory s categoryHint with
    | some c => .ok (c, true)
    | none =>
      .ok ({ id := freshCategoryId s, name := categoryHint
             checkFailureHandler := none, commands := [] }, false)

/-- The command object as stored by `_add_command`: the `command.category =
category` assignment (source line 1748) happens only on the hint path; with a
preset `category` attribute the command is stored as it came. -/
def addCommandStored (s : ProcesserState) (cmd : CommandObj)
    (cmdCategory : Option Category) : CommandObj :=
  match cmdCategory with
  | some _ => cmd
  | none =>
    match addCommandResolve s cmd cmdCategory with
    | .ok (resolvedCategory, _) => { cmd with categoryId := some resolvedCategory.id }
    | .error _ => cmd

/-- Embeds `CommandProcesser._add_command` (source lines 1729-1808). After category
resolution, `would_overwrite = commands.get(name)` may only be the command
registered under its own canonical name (`ValueError` otherwise), and every
alternative name must be free or bound to `would_overwrite` (`ValueError`
otherwise). On success the overwritten command's bindings and category
membership are removed and the new command is bound under every alternative
name. Source lines 1792-1794 rebind the local `category` variable to
`would_overwrite.category`, so with an overwrite the new command is added to
the overwritten command's category (and, when `category_added` is false, that
category is the one appended to `categories`); an overwritten command whose
`category` attribute is `None` would make `category.commands.add` raise
`AttributeError`. Errors carry the state as it is at raise time. -/
def addCommand (s : ProcesserState) (cmd : CommandObj)
    (cmdCategory : Option Category) : Except (PyErr × ProcesserState) ProcesserState :=
  match addCommandResolve s cmd cmdCategory with
  | .error e => .error (e, s)
  | .ok (resolvedCategory, categoryAdded) =>
    let wouldOverwrite := s.commands.lookup cmd.name
    if (match wouldOverwrite with
        | some w => w.name != cmd.name
        | none => false) then
      .error (.valueError, s)
    else if (cmd.alters.any fun alter =>
        match s.commands.lookup alter with
        | none => false
        | some overwrites =>
          match wouldOverwrite with
          | some w => overwrites.id != w.id
          | none => true) then
      .error (.valueError, s)
    else
      let stored := addCommandStored s cmd cmdCategory
      match wouldOverwrite with
      | none =>
        let tid := resolvedCategory.id
        let categories' :=
          if categoryAdded then
            s.categories.map fun c =>
              if c.id = tid then { c with commands := c.commands ++ [stored] } else c
          else
            s.categories ++ [{ resolvedCategory with
                               commands := resolvedCategory.commands ++ [stored] }]
        .ok { s with
              categories := categories'
              commands := cmd.alters.foldl (fun acc a => dictInsert acc a stored) s.commands }
      | some w =>
        match w.categoryId with
        | none => .error (.attributeError, s)
        | some tid =>
          let commands₁ := s.commands.filter fun kv =>
            !(w.alters.contains kv.1 && kv.2.id == w.id)
          let categories₁ := s.categories.map fun c =>
            if c.id = tid then
              { c with commands := c.commands.filter fun x => x.id != w.id }
            else c
          let categories₂ := categories₁.map fun c =>
            if c.id = tid then { c with commands := c.commands ++ [stored] } else c
          let categories₃ :=
            if categoryAdded then categories₂
            else
              match categories₂.find? (fun c => c.id = tid) with
              | some t => categories₂ ++ [t]
              | none => categories₂
          .ok { s with
                categories := categories₃
                commands := cmd.alters.foldl (fun acc a => dictInsert acc a stored) commands₁ }

/-! ## `CommandProcesser.__call__` (C1, C8)

The processer's `__call__` is an async event handler; its effects are modelled
as the list of calls it performs, in order. The results of the `await`s that
the source inspects (the invoked command, and `command_error`) are supplied as
oracle parameters. -/

/-- The fields of a `Message` that `CommandProcesser.__call__` reads:
`author.is_bot`, whether the client's cached permissions in the channel allow
sending messages, the text content, and whether `message.mentions` is set and
contains the client. -/
structure Message where
  authorIsBot : Bool
  clientCanSendMessages : Bool
  content : String
  mentionsClient : Bool
deriving DecidableEq, Repr

/-- The value produced by awaiting a command or the `command_error` handler:
`None`, a falsy or truthy non-`int`, an `int`, or an exception escaping the
await. -/
inductive CmdResult
  | retNone
  | retFalsyNonInt
  | retTruthyNonInt
  | retInt (i : Int)
  | raises
deriving DecidableEq, Repr

/-- One observable call performed by `CommandProcesser.__call__`: the wait-for
notification, awaiting a registered command (by object id) with the parsed
content, calling `invalid_command`, calling `command_error`, calling
`client.events.error`, or calling `default_event`. `modelFuelExhausted` marks
the truncation of the source's unbounded mention re-dispatch loop when the
oracle list of await results runs out. -/
inductive Event
  | notifiedWaitfors
  | awaitedCommand (commandId : Nat) (content : String)
  | calledInvalidCommand (commandName content : String)
  | calledCommandError (commandName content : String)
  | calledClientError
  | calledDefaultEvent
  | modelFuelExhausted
deriving DecidableEq, Repr

/-- The state of a `CommandProcesser` read by `__call__`: the configured string
prefix, the `ignorecase` flag, `mention_prefix`, the `commands` dict
(alternative name to command object id), and whether `command_error` is set
to something other than `DEFAULT_EVENT`. -/
structure CallProcesser where
  pfx : String
  ignorecase : Bool
  mentionPfx : Bool
  commands : List (String × Nat)
  hasCommandError : Bool
deriving DecidableEq, Repr

/-- Embeds `COMMAND_RP = re.compile(' *([^ \t\n]*) *(.*)')` (source line 20) matched
at a position of the content: skip spaces, take the maximal run free of space,
tab and newline as the command name, skip spaces, and take the rest of the
line as the content (`.` does not cross a newline). The pattern always
matches. -/
def commandRP (s : String) : String × String :=
  let s₁ := strDropWhile (· == ' ') s
  let tok := strTakeWhile (fun c => c != ' ' && c != '\t' && c != '\n') s₁
  let s₂ := strDropWhile (· == ' ') (strDrop s₁ tok.data.length)
  (tok, strTakeWhile (· != '\n') s₂)

/-- The string-prefix `PREFIX_RP` match (source lines 1650-1656): the escaped
prefix matched literally at the start of the content, case-insensitively when
`ignorecase` is set. -/
def pfxMatches (ignorecase : Bool) (pfx content : String) : Bool :=
  if ignorecase then strIsPrefixOf (strToLower pfx) (strToLower content)
  else strIsPrefixOf pfx content

/-- Embeds `prefixfilter` for a string prefix (source lines 1681-1689): `None` when
the prefix does not match, otherwise the `COMMAND_RP` groups taken from the end
of the prefix match. -/
def pfxFilter (ignorecase : Bool) (pfx : String) (m : Message) :
    Option (String × String) :=
  if pfxMatches ignorecase pfx m.content then
    some (commandRP (strDrop m.content pfx.data.length))
  else none

/-- Modelled from the spec: `USER_MENTION_RP` (`discord/others.py`, not at
hand) matches a user mention `<@!?(\d+)>` at the start of the content,
yielding the mentioned id and the match length in characters. -/
def parseUserMention (s : String) : Option (Nat × Nat) :=
  if strIsPrefixOf "<@" s then
    let rest₁ := strDrop s 2
    let bang : Nat := if strIsPrefixOf "!" rest₁ then 1 else 0
    let rest₂ := strDrop rest₁ bang
    let digits := strTakeWhile isDigitChar rest₂
    if digits.data.isEmpty then none
    else if strIsPrefixOf ">" (strDrop rest₂ digits.data.length) then
      some (digits.data.foldl (fun acc c => 10 * acc + (c.toNat - 48)) 0,
            2 + bang + digits.data.length + 1)
    else none
  else none

/-- The error handling around an awaited command (source lines 1985-2002 and
1950-1967): with a configured `command_error` it is awaited, and
`client.events.error` runs in addition when `command_error` itself raises or
returns a truthy `int`; without one, `client.events.error` runs directly. -/
def errorEvents (hasCommandError : Bool) (commandName content : String)
    (commandErrorResult : CmdResult) : List Event :=
  if hasCommandError then
    .calledCommandError commandName content ::
      (match commandErrorResult with
       | .raises => [.calledClientError]
       | .retInt i => if i = 0 then [] else [.calledClientError]
       | _ => [])
  else [.calledClientError]

/-- What follows a prefix-dispatched command await (source lines 1983-2013):
an escaping exception goes to the error handling, a `None`, non-`int` or falsy
`int` result ends the call, and a truthy `int` result calls
`invalid_command`. -/
def afterAwaitEvents (hasCommandError : Bool) (commandName content : String)
    (awaitResult commandErrorResult : CmdResult) : List Event :=
  match awaitResult with
  | .raises => errorEvents hasCommandError commandName content commandErrorResult
  | .retNone => []
  | .retFalsyNonInt => []
  | .retTruthyNonInt => []
  | .retInt i => if i = 0 then [] else [.calledInvalidCommand commandName content]

/-- The mention-prefix loop of `__call__` (source lines 1930-1971): entered
when the prefix did not match, `mention_prefix` is set and the message mentions
the client. Every `break` path falls through to `default_event` (source line
2017); a falsy command result returns; a truthy one loops, re-dispatching the
same command (successive await results are taken from the oracle list, and its
exhaustion is marked). -/
def mentionLoop (p : CallProcesser) (clientId : Nat) (m : Message)
    (awaitResults : List CmdResult) (commandErrorResult : CmdResult) : List Event :=
  if p.mentionPfx && m.mentionsClient then
    match parseUserMention m.content with
    | none => [.calledDefaultEvent]
    | some (uid, matchLen) =>
      if uid != clientId then [.calledDefaultEvent]
      else
        let groups := commandRP (m.content.drop matchLen)
        let commandName := strToLower groups.1
        match p.commands.lookup commandName with
        | none => [.calledDefaultEvent]
        | some cid =>
          match awaitResults with
          | [] => [.modelFuelExhausted]
          | r :: rest =>
            .awaitedCommand cid groups.2 ::
            (match r with
             | .raises => errorEvents p.hasCommandError commandName groups.2 commandErrorResult
             | .retNone => []
             | .retFalsyNonInt => []
             | .retTruthyNonInt => mentionLoop p clientId m rest commandErrorResult
             | .retInt i =>
               if i = 0 then [] else mentionLoop p clientId m rest commandErrorResult)
  else [.calledDefaultEvent]

/-- Embeds `CommandProcesser.__call__` (source lines 1919-2018): notify the wait-for
listeners, stop for bot authors and channels the client cannot send messages
to, then either dispatch on the matched prefix (lines 1973-2013) or fall to
the mention branch. `awaitResult` is the oracle for the prefix-dispatched
command's await. -/
def processerCall (p : CallProcesser) (clientId : Nat) (m : Message)
    (awaitResult : CmdResult) (mentionAwaitResults : List CmdResult)
    (commandErrorResult : CmdResult) : List Event :=
  .notifiedWaitfors ::
  (if m.authorIsBot then []
   else if !m.clientCanSendMessages then []
   else
     match pfxFilter p.ignorecase p.pfx m with
     | none => mentionLoop p clientId m mentionAwaitResults commandErrorResult
     | some (commandNameRaw, content) =>
       let commandName := strToLower commandNameRaw
       match p.commands.lookup commandName with
       | none => [.calledInvalidCommand commandName content]
       | some cid =>
         .awaitedCommand cid content ::
           afterAwaitEvents p.hasCommandError commandName content awaitResult commandErrorResult)

/-! # Theorems -/

/-- C10: for every forum channel and user (the base permissions being whatever
`_get_base_permissions_for` / `_get_base_permissions_for_roles` computed),
`_get_permissions_for` and `_get_permissions_for_roles` return
`PERMISSION_NONE` whenever the base permissions lack the view-channel bit, and
otherwise a permission with every thread- and voice-related bit cleared. -/
theorem forum_permissions_masked (basePermissions : Nat) :
    (basePermissions &&& PERMISSION_MASK_VIEW_CHANNEL = 0 →
      ChannelMetadataGuildForum.get_permissions_for basePermissions = PERMISSION_NONE ∧
      ChannelMetadataGuildForum.get_permissions_for_roles basePermissions = PERMISSION_NONE) ∧
    (basePermissions &&& PERMISSION_MASK_VIEW_CHANNEL ≠ 0 →
      ∀ b ∈ THREAD_AND_VOICE_BITS,
        (ChannelMetadataGuildForum.get_permissions_for basePermissions).testBit b = false ∧
        (ChannelMetadataGuildForum.get_permissions_for_roles basePermissions).testBit b = false) := by
  constructor
  · intro h
    constructor <;>
      simp [ChannelMetadataGuildForum.get_permissions_for,
        ChannelMetadataGuildForum.get_permissions_for_roles, h]
  · intro h b hb
    have hden : ∀ i ∈ THREAD_AND_VOICE_BITS,
        PERMISSION_THREAD_AND_VOICE_DENY.testBit i = false := by decide
    constructor <;>
      simp [ChannelMetadataGuildForum.get_permissions_for,
        ChannelMetadataGuildForum.get_permissions_for_roles, h,
        Nat.testBit_land, hden b hb]

/-- Witness for `forum_permissions_masked` at concrete inputs: a base without
the view bit yields no permissions, and a full base loses the connect bit. -/
theorem forum_permissions_masked_witness :
    ChannelMetadataGuildForum.get_permissions_for 0 = PERMISSION_NONE ∧
    (ChannelMetadataGuildForum.get_permissions_for (2 ^ 64 - 1)).testBit 20 = false := by
  refine ⟨((forum_permissions_masked 0).1 (by decide)).1, ?_⟩
  exact ((forum_permissions_masked (2 ^ 64 - 1)).2 (by decide) 20 (by decide)).1

/-- C4 counterexample: the claim quantifies over every
`ChannelMetadataGuildForum`; a metadata object whose
`default_thread_auto_archive_after` is `61` seconds serializes to
`default_auto_archive_duration = 1` minute, which parses back to `60`, so the
wire round-trip does not restore an equal object. -/
theorem forum_roundtrip_counterexample :
    ChannelMetadataGuildForum.is_equal_same_type
      (ChannelMetadataGuildForum.create_empty.update_attributes
        ({ ChannelMetadataGuildForum.create_empty with
           default_thread_auto_archive_after := 61 } :
          ChannelMetadataGuildForum).to_data)
      { ChannelMetadataGuildForum.create_empty with
        default_thread_auto_archive_after := 61 } = false := by
  decide

/-- C4 amended: for every `ChannelMetadataGuildForum` whose
`default_thread_auto_archive_after` is a multiple of 60 (the documented values
3600, 86400, 259200, 604800 all are) and whose `available_tags` is not the
empty tuple (an empty array parses back to `None`), a fresh object built with
`_create_empty` and updated via `_update_attributes(m._to_data())` is equal by
`_is_equal_same_type` to `m`. -/
theorem forum_roundtrip_amended (m : ChannelMetadataGuildForum)
    (harchive : 60 ∣ m.default_thread_auto_archive_after)
    (htags : m.available_tags ≠ some []) :
    ChannelMetadataGuildForum.is_equal_same_type
      (ChannelMetadataGuildForum.create_empty.update_attributes m.to_data) m = true := by
  have hupd : ChannelMetadataGuildForum.create_empty.update_attributes m.to_data = m := by
    obtain ⟨pid, nm, ov, pos, tags, arch, re, slow, fl, top⟩ := m
    simp only at harchive htags
    have harch : 60 * (arch / 60) = arch := Nat.mul_div_cancel' harchive
    cases tags with
    | none =>
      cases slow <;>
        simp [ChannelMetadataGuildForum.update_attributes, ChannelMetadataGuildForum.to_data,
          parse_available_tags, parse_default_thread_auto_archive_after,
          parse_default_thread_reaction, parse_default_thread_slowmode, parse_flags,
          parse_topic, harch]
    | some l =>
      cases l with
      | nil => exact absurd rfl htags
      | cons a t =>
        cases slow <;>
          simp [ChannelMetadataGuildForum.update_attributes, ChannelMetadataGuildForum.to_data,
            parse_available_tags, parse_default_thread_auto_archive_after,
            parse_default_thread_reaction, parse_default_thread_slowmode, parse_flags,
            parse_topic, harch]
  rw [hupd]
  obtain ⟨pid, nm, ov, pos, tags, arch, re, slow, fl, top⟩ := m
  simp [ChannelMetadataGuildForum.is_equal_same_type]

/-- Witness for `forum_roundtrip_amended` at a concrete metadata object with a
tag, a reaction, a topic and the default auto-archive duration. -/
theorem forum_roundtrip_amended_witness :
    ChannelMetadataGuildForum.is_equal_same_type
      (ChannelMetadataGuildForum.create_empty.update_attributes
        ({ parent_id := 2, name := "news-forum", permission_overwrites := [(9, 5)],
           position := 3, available_tags := some [{ id := 1, name := "news" }],
           default_thread_auto_archive_after := 86400,
           default_thread_reaction := some 44, default_thread_slowmode := 30,
           flags := 16, topic := some "talk" } :
          ChannelMetadataGuildForum).to_data)
      { parent_id := 2, name := "news-forum", permission_overwrites := [(9, 5)],
        position := 3, available_tags := some [{ id := 1, name := "news" }],
        default_thread_auto_archive_after := 86400,
        default_thread_reaction := some 44, default_thread_slowmode := 30,
        flags := 16, topic := some "talk" } = true :=
  forum_roundtrip_amended _ (by decide) (by decide)

/-- C5: `_difference_update_attributes` leaves the object holding exactly the
values parsed from the data (the same state `_update_attributes` produces), and
the returned mapping carries precisely the attributes whose parsed value
differs from the old one, each bound to the old value; unchanged attributes
are absent. -/
theorem forum_difference_update_spec (m : ChannelMetadataGuildForum) (d : ChannelData) :
    ((m.difference_update_attributes d).2 = m.update_attributes d) ∧
    ((m.difference_update_attributes d).1.parent_id =
      if m.parent_id = d.parent_id then none else some m.parent_id) ∧
    ((m.difference_update_attributes d).1.name =
      if m.name = d.name then none else some m.name) ∧
    ((m.difference_update_attributes d).1.permission_overwrites =
      if m.permission_overwrites = d.permission_overwrites then none
      else some m.permission_overwrites) ∧
    ((m.difference_update_attributes d).1.position =
      if m.position = d.position then none else some m.position) ∧
    ((m.difference_update_attributes d).1.available_tags =
      if m.available_tags = parse_available_tags d then none else some m.available_tags) ∧
    ((m.difference_update_attributes d).1.default_thread_auto_archive_after =
      if m.default_thread_auto_archive_after = parse_default_thread_auto_archive_after d
      then none else some m.default_thread_auto_archive_after) ∧
    ((m.difference_update_attributes d).1.default_thread_reaction =
      if m.default_thread_reaction = parse_default_thread_reaction d then none
      else some m.default_thread_reaction) ∧
    ((m.difference_update_attributes d).1.default_thread_slowmode =
      if m.default_thread_slowmode = parse_default_thread_slowmode d then none
      else some m.default_thread_slowmode) ∧
    ((m.difference_update_attributes d).1.flags =
      if m.flags = parse_flags d then none else some m.flags) ∧
    ((m.difference_update_attributes d).1.topic =
      if m.topic = parse_topic d then none else some m.topic) :=
  ⟨rfl, rfl, rfl, rfl, rfl, rfl, rfl, rfl, rfl, rfl, rfl⟩

/-- C9 counterexample: for a category named `"a"` compared with itself,
`__lt__` returns `True` (the source computes `self_name<=other_name`), while
the claim demands `a < b` exactly when `a > b` fails and `a != b` holds —
which is `False` here — and in particular demands `a < a` to be `False`. -/
theorem category_lt_counterexample :
    Category.ltCmp { id := 0, name := some "a", checkFailureHandler := none, commands := [] }
        { id := 0, name := some "a", checkFailureHandler := none, commands := [] } = true ∧
    ((!(Category.gtCmp
          { id := 0, name := some "a", checkFailureHandler := none, commands := [] }
          { id := 0, name := some "a", checkFailureHandler := none, commands := [] })) &&
      Category.neCmp { id := 0, name := some "a", checkFailureHandler := none, commands := [] }
        { id := 0, name := some "a", checkFailureHandler := none, commands := [] }) = false := by
  constructor <;> decide

/-- C9 amended: `a < b` holds exactly when `a > b` fails and not both names are
`None`; so for equal string names `a < b` (and in particular `a < a`) holds and
the comparison is not irreflexive. -/
theorem category_lt_amended (a b : Category) :
    a.ltCmp b = (!(a.gtCmp b) && !(a.name.isNone && b.name.isNone)) := by
  obtain ⟨aid, an, ah, ac⟩ := a
  obtain ⟨bid, bn, bh, bc⟩ := b
  cases an with
  | none => cases bn <;> simp [Category.ltCmp, Category.gtCmp]
  | some s =>
    cases bn with
    | none => simp [Category.ltCmp, Category.gtCmp]
    | some o =>
      simp [Category.ltCmp, Category.gtCmp, strLE]

/-- C7: setting `Category.check_failure_handler` stores the new handler and
rewrites exactly the commands whose handler is (by identity) the category's
previous handler, leaving every other field of every command and the rest of
the category untouched; deleting does the same with `None`, and is a no-op
when the category's handler is already `None`. -/
theorem category_check_failure_handler_propagation (cat : Category) (handler : Option Nat) :
    ((cat.setCheckFailureHandler handler).checkFailureHandler = handler ∧
     (cat.setCheckFailureHandler handler).id = cat.id ∧
     (cat.setCheckFailureHandler handler).name = cat.name ∧
     List.Forall₂ (fun c c' : CommandObj =>
         c'.checkFailureHandler =
           (if c.checkFailureHandler = cat.checkFailureHandler then handler
            else c.checkFailureHandler) ∧
         c'.id = c.id ∧ c'.name = c.name ∧ c'.alters = c.alters ∧
         c'.categoryHint = c.categoryHint ∧ c'.categoryId = c.categoryId)
       cat.commands (cat.setCheckFailureHandler handler).commands) ∧
    ((cat.checkFailureHandler = none → cat.delCheckFailureHandler = cat) ∧
     cat.delCheckFailureHandler.checkFailureHandler = none ∧
     cat.delCheckFailureHandler.id = cat.id ∧
     cat.delCheckFailureHandler.name = cat.name ∧
     List.Forall₂ (fun c c' : CommandObj =>
         c'.checkFailureHandler =
           (if c.checkFailureHandler = cat.checkFailureHandler then none
            else c.checkFailureHandler) ∧
         c'.id = c.id ∧ c'.name = c.name ∧ c'.alters = c.alters ∧
         c'.categoryHint = c.categoryHint ∧ c'.categoryId = c.categoryId)
       cat.commands cat.delCheckFailureHandler.commands) := by
  obtain ⟨cid, cname, chandler, ccommands⟩ := cat
  constructor
  · refine ⟨rfl, rfl, rfl, ?_⟩
    rw [Category.setCheckFailureHandler]
    rw [List.forall₂_map_right_iff, List.forall₂_same]
    intro c _
    by_cases hc : c.checkFailureHandler = chandler <;> simp [hc]
  · cases chandler with
    | none =>
      refine ⟨fun _ => rfl, rfl, rfl, rfl, ?_⟩
      rw [show Category.delCheckFailureHandler ⟨cid, cname, none, ccommands⟩ =
            ⟨cid, cname, none, ccommands⟩ from rfl]
      rw [List.forall₂_same]
      intro c _
      by_cases hc : c.checkFailureHandler = none <;> simp [hc]
    | some h₀ =>
      refine ⟨fun hcontra => by simp at hcontra, rfl, rfl, rfl, ?_⟩
      rw [show (Category.delCheckFailureHandler ⟨cid, cname, some h₀, ccommands⟩).commands =
            ccommands.map (fun c =>
              if c.checkFailureHandler = some h₀ then { c with checkFailureHandler := none }
              else c) from rfl]
      rw [List.forall₂_map_right_iff, List.forall₂_same]
      intro c _
      by_cases hc : c.checkFailureHandler = some h₀ <;> simp [hc]

/-- Witness for `category_check_failure_handler_propagation`: on a concrete
category with one matching and one non-matching command, the no-op clause and
the rewriting clauses are instantiated. -/
theorem category_check_failure_handler_propagation_witness :
    Category.delCheckFailureHandler
        { id := 0, name := some "c", checkFailureHandler := none,
          commands := [{ id := 1, name := "a", alters := ["a"], categoryHint := none,
                         categoryId := some 0, checkFailureHandler := none }] } =
      { id := 0, name := some "c", checkFailureHandler := none,
        commands := [{ id := 1, name := "a", alters := ["a"], categoryHint := none,
                       categoryId := some 0, checkFailureHandler := none }] } ∧
    (Category.setCheckFailureHandler
        { id := 0, name := some "c", checkFailureHandler := some 7,
          commands := [{ id := 1, name := "a", alters := ["a"], categoryHint := none,
                         categoryId := some 0, checkFailureHandler := some 7 }] }
        (some 9)).checkFailureHandler = some 9 :=
  ⟨((category_check_failure_handler_propagation
      { id := 0, name := some "c", checkFailureHandler := none,
        commands := [{ id := 1, name := "a", alters := ["a"], categoryHint := none,
                       categoryId := some 0, checkFailureHandler := none }] } none).2.1) rfl,
   ((category_check_failure_handler_propagation
      { id := 0, name := some "c", checkFailureHandler := some 7,
        commands := [{ id := 1, name := "a", alters := ["a"], categoryHint := none,
                       categoryId := some 0, checkFailureHandler := some 7 }] } (some 9)).1.1)⟩

/-- C6 (code bug): a processer built with default category name `"main"` lets
`delete_category` remove the default category when it is passed as a
`Category` object rather than by name: the call succeeds (no `ValueError`) and
afterwards `get_default_category` finds nothing, so the default category is
not present in every reachable state. -/
theorem delete_category_default_bug_eval :
    deleteCategory (newProcesser (some "main"))
        (.byObj { id := 0, name := some "main", checkFailureHandler := none, commands := [] }) =
      .ok { defaultCategoryName := some "main", categories := [], commands := [] } ∧
    getDefaultCategory
        { defaultCategoryName := some "main", categories := [], commands := [] } = none := by
  exact ⟨rfl, rfl⟩

/-! ## Helper lemmas on the check chains -/

theorem evalCheckChain_all_pass (chandler : Option Nat) (l : List Int)
    (hl : ∀ c ∈ l, c = -2) : evalCheckChain l chandler = (none, l.length) := by
  induction l with
  | nil => rfl
  | cons c rest ih =>
    have hc : c = -2 := hl c (List.mem_cons_self c rest)
    have hrest : ∀ y ∈ rest, y = -2 := fun y hy => hl y (List.mem_cons_of_mem c hy)
    simp [evalCheckChain, hc, ih hrest]

theorem evalCheckChain_first_fail (chandler : Option Nat) (pre post : List Int) (x : Int)
    (hpre : ∀ c ∈ pre, c = -2) (hx : x ≠ -2) :
    evalCheckChain (pre ++ x :: post) chandler =
      (some (if x = -1 then CheckPhaseOutcome.returnedOne
             else match chandler with
                  | none => CheckPhaseOutcome.returnedOne
                  | some h => CheckPhaseOutcome.checkFailure h x),
       pre.length + 1) := by
  induction pre with
  | nil =>
    by_cases hx1 : x = -1
    · simp [evalCheckChain, hx, hx1]
    · cases chandler <;> simp [evalCheckChain, hx, hx1]
  | cons c rest ih =>
    have hc : c = -2 := hpre c (List.mem_cons_self c rest)
    have hrest : ∀ y ∈ rest, y = -2 := fun y hy => hpre y (List.mem_cons_of_mem c hy)
    simp [evalCheckChain, hc, ih hrest]

theorem evalCheckChain_pass_iff (chandler : Option Nat) (l : List Int) :
    (evalCheckChain l chandler).1 = none ↔ ∀ c ∈ l, c = -2 := by
  induction l with
  | nil => simp [evalCheckChain]
  | cons c rest ih =>
    by_cases hc : c = -2
    · simp [evalCheckChain, hc, ih]
    · have hne : (evalCheckChain (c :: rest) chandler).1 ≠ none := by
        by_cases hc1 : c = -1
        · simp [evalCheckChain, hc, hc1]
        · cases chandler <;> simp [evalCheckChain, hc, hc1]
      exact ⟨fun h => absurd h hne,
             fun h => absurd (h c (List.mem_cons_self c rest)) hc⟩

theorem evalCheckChain_ne_dispatched (chandler : Option Nat) (l : List Int) :
    (evalCheckChain l chandler).1 ≠ some CheckPhaseOutcome.dispatched := by
  induction l with
  | nil => simp [evalCheckChain]
  | cons c rest ih =>
    by_cases hc : c = -2
    · simpa [evalCheckChain, hc] using ih
    · by_cases hc1 : c = -1
      · simp [evalCheckChain, hc, hc1]
      · cases chandler <;> simp [evalCheckChain, hc, hc1]

/-- C2: in `Command.__call__`, the category's checks run before the command's
own checks; control reaches the dispatch section (so the wrapped handler can
be invoked) exactly when every check of both chains returns `-2`; and at the
first check returning anything else, exactly `first-failure-position + 1`
checks have been evaluated, the call returns `1` on `-1` or on a missing
`check_failure_handler`, and otherwise the command's `check_failure_handler`
is awaited with the failing fail identificator. -/
theorem command_call_check_pipeline (categoryChecks ownChecks : Option (List Int))
    (checkFailureHandler : Option Nat) :
    ((commandCallChecks categoryChecks ownChecks checkFailureHandler).1 =
        CheckPhaseOutcome.dispatched ↔
      ∀ c ∈ categoryChecks.getD [] ++ ownChecks.getD [], c = -2) ∧
    (∀ pre post (x : Int),
      categoryChecks.getD [] ++ ownChecks.getD [] = pre ++ x :: post →
      (∀ c ∈ pre, c = -2) → x ≠ -2 →
      commandCallChecks categoryChecks ownChecks checkFailureHandler =
        (if x = -1 then CheckPhaseOutcome.returnedOne
         else match checkFailureHandler with
              | none => CheckPhaseOutcome.returnedOne
              | some h => CheckPhaseOutcome.checkFailure h x,
         pre.length + 1)) := by
  constructor
  · cases h1 : (evalCheckChain (categoryChecks.getD []) checkFailureHandler).1 with
    | some o =>
      have hval : (commandCallChecks categoryChecks ownChecks checkFailureHandler).1 = o := by
        simp [commandCallChecks, h1]
      constructor
      · intro hd
        rw [hval] at hd
        exact absurd (hd ▸ h1) (evalCheckChain_ne_dispatched checkFailureHandler _)
      · intro hall
        have hnone : (evalCheckChain (categoryChecks.getD []) checkFailureHandler).1 = none :=
          (evalCheckChain_pass_iff checkFailureHandler _).mpr
            (fun c hc => hall c (List.mem_append_left _ hc))
        rw [h1] at hnone
        cases hnone
    | none =>
      cases h2 : (evalCheckChain (ownChecks.getD []) checkFailureHandler).1 with
      | some o =>
        have hval : (commandCallChecks categoryChecks ownChecks checkFailureHandler).1 = o := by
          simp [commandCallChecks, h1, h2]
        constructor
        · intro hd
          rw [hval] at hd
          exact absurd (hd ▸ h2) (evalCheckChain_ne_dispatched checkFailureHandler _)
        · intro hall
          have hnone : (evalCheckChain (ownChecks.getD []) checkFailureHandler).1 = none :=
            (evalCheckChain_pass_iff checkFailureHandler _).mpr
              (fun c hc => hall c (List.mem_append_right _ hc))
          rw [h2] at hnone
          cases hnone
      | none =>
        constructor
        · intro _
          intro c hc
          rcases List.mem_append.mp hc with hcl | hcr
          · exact (evalCheckChain_pass_iff checkFailureHandler _).mp h1 c hcl
          · exact (evalCheckChain_pass_iff checkFailureHandler _).mp h2 c hcr
        · intro _
          simp [commandCallChecks, h1, h2]
  · intro pre post x hsplit hpre hx
    rcases List.append_eq_append_iff.mp hsplit with ⟨a', hpre_eq, hown⟩ | ⟨c', hcat, hxpost⟩
    · have hprelist : ∀ c ∈ categoryChecks.getD [] ++ a', c = -2 := hpre_eq ▸ hpre
      have hcatall : ∀ c ∈ categoryChecks.getD [], c = -2 :=
        fun c hc => hprelist c (List.mem_append_left _ hc)
      have ha' : ∀ c ∈ a', c = -2 := fun c hc => hprelist c (List.mem_append_right _ hc)
      have h1 := evalCheckChain_all_pass checkFailureHandler _ hcatall
      have h2 := evalCheckChain_first_fail checkFailureHandler a' post x ha' hx
      rw [← hown] at h2
      simp only [commandCallChecks, h1, h2]
      rw [hpre_eq]
      simp [Nat.add_assoc]
    · cases c' with
      | nil =>
        have hxpost' : x :: post = ownChecks.getD [] := by simpa using hxpost
        have hcat' : categoryChecks.getD [] = pre := by simpa using hcat
        have h1 := evalCheckChain_all_pass checkFailureHandler (categoryChecks.getD [])
          (fun c hc => hpre c (hcat' ▸ hc))
        have h2 := evalCheckChain_first_fail checkFailureHandler [] post x (by simp) hx
        rw [List.nil_append, hxpost'] at h2
        simp only [commandCallChecks, h1, h2]
        rw [hcat']
        simp
      | cons y c'' =>
        obtain ⟨rfl, _⟩ : y = x ∧ post = c'' ++ ownChecks.getD [] := by
          have hx2 := hxpost
          simp only [List.cons_append] at hx2
          exact ⟨(List.cons_eq_cons.mp hx2).1.symm, (List.cons_eq_cons.mp hx2).2⟩
        have h1 := evalCheckChain_first_fail checkFailureHandler pre c'' y hpre hx
        rw [← hcat] at h1
        simp [commandCallChecks, h1]

/-- Witness for `command_call_check_pipeline`: with category checks
`[-2, 5]`, no own checks and handler id `7`, the second check fails with
identificator `5`, the handler is invoked and two checks were evaluated;
moreover with all checks passing the phase dispatches. -/
theorem command_call_check_pipeline_witness :
    commandCallChecks (some [-2, 5]) none (some 7) =
      (CheckPhaseOutcome.checkFailure 7 5, 2) ∧
    (commandCallChecks (some [-2]) (some [-2]) (some 7)).1 =
      CheckPhaseOutcome.dispatched := by
  constructor
  · have h := (command_call_check_pipeline (some [-2, 5]) none (some 7)).2
      [-2] [] 5 (by decide) (by decide) (by decide)
    simpa using h
  · exact (command_call_check_pipeline (some [-2]) (some [-2]) (some 7)).1.mpr (by decide)

/-- C8: `CommandProcesser.__call__` on a message from a bot author, or in a
channel where the client cannot send messages, performs only the wait-for
notification: no registered command, no `invalid_command`, no
`default_event`. -/
theorem processer_call_ignores_bots_and_unsendable (p : CallProcesser) (clientId : Nat)
    (m : Message) (awaitResult : CmdResult) (mentionAwaitResults : List CmdResult)
    (commandErrorResult : CmdResult)
    (h : m.authorIsBot = true ∨ m.clientCanSendMessages = false) :
    processerCall p clientId m awaitResult mentionAwaitResults commandErrorResult =
      [Event.notifiedWaitfors] := by
  rcases h with h | h <;> simp [processerCall, h]

/-- Witness for `processer_call_ignores_bots_and_unsendable` on a concrete bot
message that would otherwise match the prefix and a registered command. -/
theorem processer_call_ignores_bots_and_unsendable_witness :
    processerCall { pfx := "!", ignorecase := false, mentionPfx := true,
                    commands := [("ping", 7)], hasCommandError := false } 1
        { authorIsBot := true, clientCanSendMessages := true,
          content := "!ping", mentionsClient := false }
        CmdResult.retNone [] CmdResult.retNone = [Event.notifiedWaitfors] :=
  processer_call_ignores_bots_and_unsendable _ 1 _ _ _ _ (Or.inl rfl)

/-- C1: when the prefix matches, `CommandProcesser.__call__` takes the first
`COMMAND_RP` token after the prefix, lowercases it and looks it up in
`commands`: a registered command (under its name or any alias variant, which
is what the `commands` dict holds) is awaited with the remaining content;
otherwise `invalid_command` is called with the command name and content in
place of any command. -/
theorem processer_call_dispatch (p : CallProcesser) (clientId : Nat) (m : Message)
    (awaitResult : CmdResult) (mentionAwaitResults : List CmdResult)
    (commandErrorResult : CmdResult) (commandNameRaw content : String)
    (hbot : m.authorIsBot = false) (hsend : m.clientCanSendMessages = true)
    (hmatch : pfxFilter p.ignorecase p.pfx m = some (commandNameRaw, content)) :
    (∀ cid, p.commands.lookup (strToLower commandNameRaw) = some cid →
      processerCall p clientId m awaitResult mentionAwaitResults commandErrorResult =
        Event.notifiedWaitfors :: Event.awaitedCommand cid content ::
          afterAwaitEvents p.hasCommandError (strToLower commandNameRaw) content
            awaitResult commandErrorResult) ∧
    (p.commands.lookup (strToLower commandNameRaw) = none →
      processerCall p clientId m awaitResult mentionAwaitResults commandErrorResult =
        [Event.notifiedWaitfors,
         Event.calledInvalidCommand (strToLower commandNameRaw) content]) := by
  constructor
  · intro cid hcid
    simp [processerCall, hbot, hsend, hmatch, hcid]
  · intro hnone
    simp [processerCall, hbot, hsend, hmatch, hnone]

/-- Witness for `processer_call_dispatch`: with prefix `"!"`, the message
`"!PING  hello world"` dispatches the command registered as `"ping"` with
content `"hello world"`, and `"!nope x"` goes to `invalid_command`. -/
theorem processer_call_dispatch_witness :
    processerCall { pfx := "!", ignorecase := false, mentionPfx := true,
                    commands := [("ping", 7)], hasCommandError := false } 1
        { authorIsBot := false, clientCanSendMessages := true,
          content := "!PING  hello world", mentionsClient := false }
        CmdResult.retNone [] CmdResult.retNone =
      [Event.notifiedWaitfors, Event.awaitedCommand 7 "hello world"] ∧
    processerCall { pfx := "!", ignorecase := false, mentionPfx := true,
                    commands := [("ping", 7)], hasCommandError := false } 1
        { authorIsBot := false, clientCanSendMessages := true,
          content := "!nope x", mentionsClient := false }
        CmdResult.retNone [] CmdResult.retNone =
      [Event.notifiedWaitfors, Event.calledInvalidCommand "nope" "x"] := by
  constructor
  · have h := (processer_call_dispatch
        { pfx := "!", ignorecase := false, mentionPfx := true,
          commands := [("ping", 7)], hasCommandError := false } 1
        { authorIsBot := false, clientCanSendMessages := true,
          content := "!PING  hello world", mentionsClient := false }
        CmdResult.retNone [] CmdResult.retNone "PING" "hello world"
        rfl rfl (by decide)).1 7 (by decide)
    simpa [afterAwaitEvents] using h
  · have h := (processer_call_dispatch
        { pfx := "!", ignorecase := false, mentionPfx := true,
          commands := [("ping", 7)], hasCommandError := false } 1
        { authorIsBot := false, clientCanSendMessages := true,
          content := "!nope x", mentionsClient := false }
        CmdResult.retNone [] CmdResult.retNone "nope" "x"
        rfl rfl (by decide)).2 (by decide)
    simpa using h

/-! ## Helper lemmas on the commands dict and on category resolution -/

theorem lookup_cons (a b : String) (w : CommandObj) (t : List (String × CommandObj)) :
    List.lookup a ((b, w) :: t) = if a == b then some w else List.lookup a t := by
  cases h : a == b <;> simp [List.lookup, h]

theorem beq_comm_false {a b : String} (h : (a == b) = false) : (b == a) = false := by
  rw [beq_eq_false_iff_ne] at h ⊢
  exact fun he => h he.symm

theorem dict_map_lookup_self (l : List (String × CommandObj)) (k : String) (v : CommandObj)
    (h : (l.any fun kv => kv.1 == k) = true) :
    (l.map fun kv => if kv.1 == k then (k, v) else kv).lookup k = some v := by
  induction l with
  | nil => simp at h
  | cons kv rest ih =>
    obtain ⟨k₁, w⟩ := kv
    by_cases hk : (k₁ == k) = true
    · have hcond : ((k₁, w).1 == k) = true := hk
      rw [List.map_cons, if_pos hcond, lookup_cons, if_pos (beq_self_eq_true k)]
    · have hk' : (k₁ == k) = false := by simpa using hk
      have hcond : ¬((k₁, w).1 == k) = true := hk
      have hany : (rest.any fun kv => kv.1 == k) = true := by
        simpa [List.any_cons, hk'] using h
      rw [List.map_cons, if_neg hcond, lookup_cons, if_neg (by simp [beq_comm_false hk'])]
      exact ih hany

theorem dict_append_lookup_self (l : List (String × CommandObj)) (k : String) (v : CommandObj)
    (h : ∀ kv ∈ l, (kv.1 == k) = false) :
    (l ++ [(k, v)]).lookup k = some v := by
  induction l with
  | nil => simp [List.lookup]
  | cons kv rest ih =>
    obtain ⟨k₁, w⟩ := kv
    have hk := h (k₁, w) (List.mem_cons_self _ rest)
    rw [List.cons_append, lookup_cons, if_neg (by simp [beq_comm_false hk])]
    exact ih fun kv2 h2 => h kv2 (List.mem_cons_of_mem _ h2)

theorem dictInsert_lookup_self (l : List (String × CommandObj)) (k : String) (v : CommandObj) :
    (dictInsert l k v).lookup k = some v := by
  unfold dictInsert
  by_cases h : (l.any fun kv => kv.1 == k) = true
  · rw [if_pos h]
    exact dict_map_lookup_self l k v h
  · rw [if_neg h]
    apply dict_append_lookup_self
    intro kv hkv
    by_contra hcon
    exact h (List.any_eq_true.mpr ⟨kv, hkv, by simpa using hcon⟩)

theorem dict_map_lookup_ne (l : List (String × CommandObj)) (k k' : String) (v : CommandObj)
    (hne : k ≠ k') :
    (l.map fun kv => if kv.1 == k' then (k', v) else kv).lookup k = l.lookup k := by
  induction l with
  | nil => simp
  | cons kv rest ih =>
    obtain ⟨k₁, w⟩ := kv
    by_cases hk : (k₁ == k') = true
    · have hcond : ((k₁, w).1 == k') = true := hk
      have hkk' : (k == k') = false := by simpa using hne
      have hkk₁ : (k == k₁) = false := by
        rw [beq_eq_false_iff_ne]
        intro he
        rw [beq_iff_eq] at hk
        exact hne (he.trans hk)
      rw [List.map_cons, if_pos hcond, lookup_cons, if_neg (by simp [hkk']),
        lookup_cons, if_neg (by simp [hkk₁])]
      exact ih
    · have hcond : ¬((k₁, w).1 == k') = true := hk
      rw [List.map_cons, if_neg hcond, lookup_cons, lookup_cons]
      by_cases hkk : (k == k₁) = true
      · rw [if_pos hkk, if_pos hkk]
      · rw [if_neg hkk, if_neg hkk]
        exact ih

theorem dict_append_lookup_ne (l : List (String × CommandObj)) (k k' : String) (v : CommandObj)
    (hne : k ≠ k') :
    (l ++ [(k', v)]).lookup k = l.lookup k := by
  induction l with
  | nil =>
    have hkk : (k == k') = false := by simpa using hne
    simp [lookup_cons, hkk]
  | cons kv rest ih =>
    obtain ⟨k₁, w⟩ := kv
    rw [List.cons_append, lookup_cons, lookup_cons]
    by_cases hkk : (k == k₁) = true
    · rw [if_pos hkk, if_pos hkk]
    · rw [if_neg hkk, if_neg hkk]
      exact ih

theorem dictInsert_lookup_ne (l : List (String × CommandObj)) (k k' : String) (v : CommandObj)
    (hne : k ≠ k') :
    (dictInsert l k' v).lookup k = l.lookup k := by
  unfold dictInsert
  by_cases h : (l.any fun kv => kv.1 == k') = true
  · rw [if_pos h]
    exact dict_map_lookup_ne l k k' v hne
  · rw [if_neg h]
    exact dict_append_lookup_ne l k k' v hne

theorem foldl_dictInsert_lookup (v : CommandObj) (a : String) :
    ∀ (alters : List String) (base : List (String × CommandObj)),
      (a ∈ alters ∨ base.lookup a = some v) →
      (alters.foldl (fun acc x => dictInsert acc x v) base).lookup a = some v := by
  intro alters
  induction alters with
  | nil =>
    intro base h
    rcases h with h | h
    · cases h
    · simpa using h
  | cons x rest ih =>
    intro base h
    simp only [List.foldl_cons]
    apply ih
    by_cases hax : a = x
    · right
      rw [hax]
      exact dictInsert_lookup_self base x v
    · rcases h with h | h
      · rcases List.mem_cons.mp h with h1 | h1
        · right
          rw [h1]
          exact dictInsert_lookup_self base x v
        · left
          exact h1
      · right
        rw [dictInsert_lookup_ne base a x v hax]
        exact h

theorem addCommandResolve_error_val (s : ProcesserState) (cmd : CommandObj)
    (cmdCategory : Option Category) (e : PyErr)
    (h : addCommandResolve s cmd cmdCategory = .error e) : e = .valueError := by
  unfold addCommandResolve at h
  cases cmdCategory with
  | none =>
    cases hg : getCategory s
        (match cmd.categoryHint with
         | none => s.defaultCategoryName
         | some hint => some hint) <;>
      simp [hg] at h
  | some category =>
    cases hg : getCategory s category.name with
    | none =>
      simp [hg] at h
      exact h.symm
    | some owned =>
      by_cases hid : owned.id = category.id <;> simp [hg, hid] at h
      exact h.symm

theorem addCommandResolve_error_iff (s : ProcesserState) (cmd : CommandObj)
    (cmdCategory : Option Category) :
    (∃ e, addCommandResolve s cmd cmdCategory = .error e) ↔
      (∃ category, cmdCategory = some category ∧
        ∀ owned, getCategory s category.name = some owned → owned.id ≠ category.id) := by
  unfold addCommandResolve
  cases cmdCategory with
  | none =>
    cases hg : getCategory s
        (match cmd.categoryHint with
         | none => s.defaultCategoryName
         | some hint => some hint) <;>
      simp [hg]
  | some category =>
    cases hg : getCategory s category.name with
    | none => simp [hg]
    | some owned =>
      by_cases hid : owned.id = category.id <;> simp [hg, hid]

theorem addCommandResolve_ok_mem (s : ProcesserState) (cmd : CommandObj)
    (cmdCategory : Option Category) (rc : Category)
    (h : addCommandResolve s cmd cmdCategory = .ok (rc, true)) : rc ∈ s.categories := by
  unfold addCommandResolve at h
  cases cmdCategory with
  | none =>
    cases hg : getCategory s
        (match cmd.categoryHint with
         | none => s.defaultCategoryName
         | some hint => some hint) with
    | none => simp [hg] at h
    | some c =>
      simp [hg] at h
      exact h ▸ List.mem_of_find?_eq_some hg
  | some category =>
    cases hg : getCategory s category.name with
    | none => simp [hg] at h
    | some owned =>
      by_cases hid : owned.id = category.id <;> simp [hg, hid] at h
      exact h ▸ List.mem_of_find?_eq_some hg

/-- C3 counterexample: with a fresh processer (empty commands dict, so neither
of the claim's two raise conditions can hold), `_add_command` still raises
`ValueError` when the command's `category` attribute holds a `Category` object
the processer does not own. -/
theorem add_command_unowned_category_counterexample :
    addCommand (newProcesser none)
        { id := 10, name := "a", alters := ["a"], categoryHint := none,
          categoryId := some 5, checkFailureHandler := none }
        (some { id := 5, name := some "other", checkFailureHandler := none, commands := [] }) =
      .error (.valueError, newProcesser none) ∧
    (newProcesser none).commands = [] := by
  exact ⟨rfl, rfl⟩

/-- C3 amended: `_add_command` raises `ValueError` exactly when the command's
`category` attribute holds a category object not owned by the processer, or
the canonical name is registered as an alias of a different command, or some
alternative name is registered to a command other than the one being
overwritten; whenever it raises (also the `AttributeError` of an overwritten
command without category) the commands mapping is unchanged; on success the
command is registered under every alternative name, and it is added to the
command list of its resolved category when nothing is overwritten, and to the
overwritten command's category otherwise (source lines 1792-1799 rebind
`category`). -/
theorem add_command_amended (s : ProcesserState) (cmd : CommandObj)
    (cmdCategory : Option Category) :
    ((∃ s', addCommand s cmd cmdCategory = .error (.valueError, s')) ↔
      ((∃ category, cmdCategory = some category ∧
          ∀ owned, getCategory s category.name = some owned → owned.id ≠ category.id) ∨
       (∃ w, s.commands.lookup cmd.name = some w ∧ w.name ≠ cmd.name) ∨
       (∃ alter ∈ cmd.alters, ∃ overwrites, s.commands.lookup alter = some overwrites ∧
          ∀ w, s.commands.lookup cmd.name = some w → overwrites.id ≠ w.id))) ∧
    (∀ e s', addCommand s cmd cmdCategory = .error (e, s') → s'.commands = s.commands) ∧
    (∀ s', addCommand s cmd cmdCategory = .ok s' →
      ((∀ alter ∈ cmd.alters,
          s'.commands.lookup alter = some (addCommandStored s cmd cmdCategory)) ∧
       (s.commands.lookup cmd.name = none →
          ∀ rc ca, addCommandResolve s cmd cmdCategory = .ok (rc, ca) →
            ∃ c ∈ s'.categories, c.id = rc.id ∧
              addCommandStored s cmd cmdCategory ∈ c.commands) ∧
       (∀ w, s.commands.lookup cmd.name = some w →
          ∀ tid, w.categoryId = some tid →
          (∃ c ∈ s.categories, c.id = tid) →
          ∃ c ∈ s'.categories, c.id = tid ∧
            addCommandStored s cmd cmdCategory ∈ c.commands))) := by
  cases hres : addCommandResolve s cmd cmdCategory with
  | error e =>
    have he : e = .valueError := addCommandResolve_error_val s cmd cmdCategory e hres
    subst he
    have haddc : addCommand s cmd cmdCategory = .error (.valueError, s) := by
      simp [addCommand, hres]
    refine ⟨⟨fun _ => ?_, fun _ => ⟨s, haddc⟩⟩, fun e' s' h' => ?_, fun s' h' => ?_⟩
    · exact Or.inl ((addCommandResolve_error_iff s cmd cmdCategory).mp ⟨_, hres⟩)
    · rw [haddc] at h'
      have h2 : s = s' := by
        have := h'
        simp only [Except.error.injEq, Prod.mk.injEq] at this
        exact this.2
      rw [← h2]
    · rw [haddc] at h'
      cases h'
  | ok rcca =>
    obtain ⟨rc, ca⟩ := rcca
    have hnoC : ¬∃ category, cmdCategory = some category ∧
        ∀ owned, getCategory s category.name = some owned → owned.id ≠ category.id := by
      intro hC
      obtain ⟨e, he⟩ := (addCommandResolve_error_iff s cmd cmdCategory).mpr hC
      rw [hres] at he
      cases he
    cases hlook : s.commands.lookup cmd.name with
    | none =>
      by_cases hB : (cmd.alters.any fun alter =>
          match s.commands.lookup alter with
          | none => false
          | some _ => true) = true
      · -- raise on an alternative name
        have haddc : addCommand s cmd cmdCategory = .error (.valueError, s) := by
          simp only [addCommand, hres, hlook]
          rw [if_neg (by simp), if_pos hB]
        refine ⟨⟨fun _ => ?_, fun _ => ⟨s, haddc⟩⟩, fun e' s' h' => ?_, fun s' h' => ?_⟩
        · refine Or.inr (Or.inr ?_)
          obtain ⟨alter, halt, hsome⟩ := List.any_eq_true.mp hB
          cases hov : s.commands.lookup alter with
          | none => rw [hov] at hsome; cases hsome
          | some overwrites =>
            exact ⟨alter, halt, overwrites, hov, fun w hw => Option.noConfusion hw⟩
        · rw [haddc] at h'
          have h2 : s = s' := by
            simp only [Except.error.injEq, Prod.mk.injEq] at h'
            exact h'.2
          rw [← h2]
        · rw [haddc] at h'
          cases h'
      · -- success, no overwrite
        have hnoB : ¬∃ alter ∈ cmd.alters, ∃ overwrites,
            s.commands.lookup alter = some overwrites ∧
            ∀ w : CommandObj, (none : Option CommandObj) = some w →
              overwrites.id ≠ w.id := by
          rintro ⟨alter, halt, overwrites, hov, -⟩
          exact hB (List.any_eq_true.mpr ⟨alter, halt, by rw [hov]⟩)
        have haddc : addCommand s cmd cmdCategory =
            .ok { s with
                  categories :=
                    if ca then
                      s.categories.map fun c =>
                        if c.id = rc.id then
                          { c with commands := c.commands ++ [addCommandStored s cmd cmdCategory] }
                        else c
                    else
                      s.categories ++
                        [{ rc with
                           commands := rc.commands ++ [addCommandStored s cmd cmdCategory] }]
                  commands := cmd.alters.foldl
                    (fun acc a => dictInsert acc a (addCommandStored s cmd cmdCategory))
                    s.commands } := by
          simp only [addCommand, hres, hlook]
          rw [if_neg (by simp), if_neg hB]
        refine ⟨⟨fun hv => ?_, fun hc => ?_⟩, fun e' s' h' => ?_, fun s' h' => ?_⟩
        · obtain ⟨s', hv⟩ := hv
          rw [haddc] at hv
          cases hv
        · rcases hc with hc | hc | hc
          · exact absurd hc hnoC
          · obtain ⟨w, hw, -⟩ := hc
            exact Option.noConfusion hw
          · exact absurd hc hnoB
        · rw [haddc] at h'
          cases h'
        · rw [haddc] at h'
          have hs' : s' = { s with
              categories :=
                if ca then
                  s.categories.map fun c =>
                    if c.id = rc.id then
                      { c with commands := c.commands ++ [addCommandStored s cmd cmdCategory] }
                    else c
                else
                  s.categories ++
                    [{ rc with
                       commands := rc.commands ++ [addCommandStored s cmd cmdCategory] }]
              commands := cmd.alters.foldl
                (fun acc a => dictInsert acc a (addCommandStored s cmd cmdCategory))
                s.commands } := by
            simp only [Except.ok.injEq] at h'
            exact h'.symm
          refine ⟨fun alter halt => ?_, fun _ rc' ca' hres' => ?_, fun w hw => ?_⟩
          · rw [hs']
            exact foldl_dictInsert_lookup _ alter cmd.alters s.commands (Or.inl halt)
          · have hrc : rc' = rc := by
              simp only [Except.ok.injEq, Prod.mk.injEq] at hres'
              exact hres'.1.symm
            subst hrc
            rw [hs']
            rcases Bool.dichotomy ca with hca | hca
            · subst hca
              refine ⟨{ rc' with
                        commands := rc'.commands ++ [addCommandStored s cmd cmdCategory] },
                      ?_, rfl, List.mem_append_right _ (List.mem_singleton_self _)⟩
              simp only [Bool.false_eq_true, if_false]
              exact List.mem_append_right _ (List.mem_singleton_self _)
            · subst hca
              have hmem : rc' ∈ s.categories :=
                addCommandResolve_ok_mem s cmd cmdCategory rc' hres
              refine ⟨{ rc' with
                        commands := rc'.commands ++ [addCommandStored s cmd cmdCategory] },
                      ?_, rfl, List.mem_append_right _ (List.mem_singleton_self _)⟩
              simp only [if_true]
              exact List.mem_map.mpr ⟨rc', hmem, by simp⟩
          · exact Option.noConfusion hw
    | some w =>
      by_cases hA : (w.name != cmd.name) = true
      · -- raise: the canonical name is an alias of a different command
        have haddc : addCommand s cmd cmdCategory = .error (.valueError, s) := by
          simp only [addCommand, hres, hlook]
          rw [if_pos hA]
        refine ⟨⟨fun _ => ?_, fun _ => ⟨s, haddc⟩⟩, fun e' s' h' => ?_, fun s' h' => ?_⟩
        · exact Or.inr (Or.inl ⟨w, rfl, bne_iff_ne.mp hA⟩)
        · rw [haddc] at h'
          have h2 : s = s' := by
            simp only [Except.error.injEq, Prod.mk.injEq] at h'
            exact h'.2
          rw [← h2]
        · rw [haddc] at h'
          cases h'
      · have hnoA : ¬∃ w', (some w : Option CommandObj) = some w' ∧ w'.name ≠ cmd.name := by
          rintro ⟨w', hw', hne⟩
          have hww : w = w' := by
            simpa using hw'
          exact hA (bne_iff_ne.mpr (hww ▸ hne))
        by_cases hB : (cmd.alters.any fun alter =>
            match s.commands.lookup alter with
            | none => false
            | some overwrites => overwrites.id != w.id) = true
        · -- raise on an alternative name bound to a different command
          have haddc : addCommand s cmd cmdCategory = .error (.valueError, s) := by
            simp only [addCommand, hres, hlook]
            rw [if_neg hA, if_pos hB]
          refine ⟨⟨fun _ => ?_, fun _ => ⟨s, haddc⟩⟩, fun e' s' h' => ?_, fun s' h' => ?_⟩
          · refine Or.inr (Or.inr ?_)
            obtain ⟨alter, halt, hsome⟩ := List.any_eq_true.mp hB
            cases hov : s.commands.lookup alter with
            | none => rw [hov] at hsome; cases hsome
            | some overwrites =>
              rw [hov] at hsome
              refine ⟨alter, halt, overwrites, hov, fun w' hw' => ?_⟩
              have hww : w = w' := by simpa using hw'
              rw [← hww]
              exact bne_iff_ne.mp hsome
          · rw [haddc] at h'
            have h2 : s = s' := by
              simp only [Except.error.injEq, Prod.mk.injEq] at h'
              exact h'.2
            rw [← h2]
          · rw [haddc] at h'
            cases h'
        · -- no ValueError; success or AttributeError depending on the category
          have hnoB : ¬∃ alter ∈ cmd.alters, ∃ overwrites,
              s.commands.lookup alter = some overwrites ∧
              ∀ w' : CommandObj, (some w : Option CommandObj) = some w' →
                overwrites.id ≠ w'.id := by
            rintro ⟨alter, halt, overwrites, hov, hdiff⟩
            exact hB (List.any_eq_true.mpr ⟨alter, halt, by
              rw [hov]
              exact bne_iff_ne.mpr (hdiff w rfl)⟩)
          cases hwcat : w.categoryId with
          | none =>
            have haddc : addCommand s cmd cmdCategory = .error (.attributeError, s) := by
              simp only [addCommand, hres, hlook, hwcat]
              rw [if_neg hA, if_neg hB]
            refine ⟨⟨fun hv => ?_, fun hc => ?_⟩, fun e' s' h' => ?_, fun s' h' => ?_⟩
            · obtain ⟨s', hv⟩ := hv
              rw [haddc] at hv
              have : PyErr.attributeError = PyErr.valueError := by
                simp only [Except.error.injEq, Prod.mk.injEq] at hv
                exact hv.1
              cases this
            · rcases hc with hc | hc | hc
              · exact absurd hc hnoC
              · exact absurd hc hnoA
              · exact absurd hc hnoB
            · rw [haddc] at h'
              have h2 : s = s' := by
                simp only [Except.error.injEq, Prod.mk.injEq] at h'
                exact h'.2
              rw [← h2]
            · rw [haddc] at h'
              cases h'
          | some tid =>
            have haddc : addCommand s cmd cmdCategory =
                .ok { s with
                      categories :=
                        if ca then
                          (s.categories.map fun c =>
                            if c.id = tid then
                              { c with commands := c.commands.filter fun x => x.id != w.id }
                            else c).map fun c =>
                            if c.id = tid then
                              { c with
                                commands := c.commands ++ [addCommandStored s cmd cmdCategory] }
                            else c
                        else
                          match ((s.categories.map fun c =>
                              if c.id = tid then
                                { c with commands := c.commands.filter fun x => x.id != w.id }
                              else c).map fun c =>
                              if c.id = tid then
                                { c with
                                  commands := c.commands ++ [addCommandStored s cmd cmdCategory] }
                              else c).find? (fun c => c.id = tid) with
                          | some t =>
                            ((s.categories.map fun c =>
                              if c.id = tid then
                                { c with commands := c.commands.filter fun x => x.id != w.id }
                              else c).map fun c =>
                              if c.id = tid then
                                { c with
                                  commands := c.commands ++ [addCommandStored s cmd cmdCategory] }
                              else c) ++ [t]
                          | none =>
                            (s.categories.map fun c =>
                              if c.id = tid then
                                { c with commands := c.commands.filter fun x => x.id != w.id }
                              else c).map fun c =>
                              if c.id = tid then
                                { c with
                                  commands := c.commands ++ [addCommandStored s cmd cmdCategory] }
                              else c
                      commands := cmd.alters.foldl
                        (fun acc a => dictInsert acc a (addCommandStored s cmd cmdCategory))
                        (s.commands.filter fun kv =>
                          !(w.alters.contains kv.1 && kv.2.id == w.id)) } := by
              simp only [addCommand, hres, hlook, hwcat]
              rw [if_neg hA, if_neg hB]
            refine ⟨⟨fun hv => ?_, fun hc => ?_⟩, fun e' s' h' => ?_, fun s' h' => ?_⟩
            · obtain ⟨s', hv⟩ := hv
              rw [haddc] at hv
              cases hv
            · rcases hc with hc | hc | hc
              · exact absurd hc hnoC
              · exact absurd hc hnoA
              · exact absurd hc hnoB
            · rw [haddc] at h'
              cases h'
            · rw [haddc] at h'
              have hs' := (Except.ok.injEq _ _).mp h'
              refine ⟨fun alter halt => ?_, fun hnone _ _ _ => ?_,
                      fun w' hw' tid' htid' hex => ?_⟩
              · rw [← hs']
                exact foldl_dictInsert_lookup _ alter cmd.alters _ (Or.inl halt)
              · exact Option.noConfusion hnone
              · have hww : w' = w := by simpa using hw'.symm
                subst hww
                have htid2 : tid' = tid := by
                  rw [hwcat] at htid'
                  simpa using htid'.symm
                subst htid2
                obtain ⟨c₀, hc₀mem, hc₀id⟩ := hex
                have hmem₁ : ({ c₀ with
                    commands := c₀.commands.filter fun x => x.id != w'.id } : Category) ∈
                    (s.categories.map fun c =>
                      if c.id = tid' then
                        { c with commands := c.commands.filter fun x => x.id != w'.id }
                      else c) := by
                  exact List.mem_map.mpr ⟨c₀, hc₀mem, by simp [hc₀id]⟩
                have hmem₂ : ({ c₀ with
                    commands := (c₀.commands.filter fun x => x.id != w'.id) ++
                      [addCommandStored s cmd cmdCategory] } : Category) ∈
                    ((s.categories.map fun c =>
                      if c.id = tid' then
                        { c with commands := c.commands.filter fun x => x.id != w'.id }
                      else c).map fun c =>
                      if c.id = tid' then
                        { c with
                          commands := c.commands ++ [addCommandStored s cmd cmdCategory] }
                      else c) := by
                  exact List.mem_map.mpr
                    ⟨{ c₀ with commands := c₀.commands.filter fun x => x.id != w'.id },
                     hmem₁, by simp [hc₀id]⟩
                refine ⟨{ c₀ with
                          commands := (c₀.commands.filter fun x => x.id != w'.id) ++
                            [addCommandStored s cmd cmdCategory] },
                        ?_, hc₀id, List.mem_append_right _ (List.mem_singleton_self _)⟩
                rw [← hs']
                rcases Bool.dichotomy ca with hca | hca
                · subst hca
                  simp only [Bool.false_eq_true, if_false]
                  cases hfind : ((s.categories.map fun c =>
                      if c.id = tid' then
                        { c with commands := c.commands.filter fun x => x.id != w'.id }
                      else c).map fun c =>
                      if c.id = tid' then
                        { c with
                          commands := c.commands ++ [addCommandStored s cmd cmdCategory] }
                      else c).find? (fun c => c.id = tid') with
                  | some t =>
                    simp only [hfind]
                    exact List.mem_append_left _ hmem₂
                  | none =>
                    simp only [hfind]
                    exact hmem₂
                · subst hca
                  simp only [if_true]
                  exact hmem₂

/-- Witness for `add_command_amended`: adding a fresh command named `"a"` to a
fresh processer succeeds and registers it (with its category pointer set to
the default category) under its alternative name. -/
theorem add_command_amended_witness :
    addCommand (newProcesser none)
        { id := 10, name := "a", alters := ["a"], categoryHint := none,
          categoryId := none, checkFailureHandler := none } none =
      .ok { defaultCategoryName := none,
            categories := [{ id := 0, name := none, checkFailureHandler := none,
                             commands := [{ id := 10, name := "a", alters := ["a"],
                                            categoryHint := none, categoryId := some 0,
                                            checkFailureHandler := none }] }],
            commands := [("a", { id := 10, name := "a", alters := ["a"],
                                 categoryHint := none, categoryId := some 0,
                                 checkFailureHandler := none })] } ∧
    List.lookup "a"
        [("a", ({ id := 10, name := "a", alters := ["a"], categoryHint := none,
                  categoryId := some 0, checkFailureHandler := none } : CommandObj))] =
      some (addCommandStored (newProcesser none)
        { id := 10, name := "a", alters := ["a"], categoryHint := none,
          categoryId := none, checkFailureHandler := none } none) := by
  constructor
  · rfl
  · have h := ((add_command_amended (newProcesser none)
        { id := 10, name := "a", alters := ["a"], categoryHint := none,
          categoryId := none, checkFailureHandler := none } none).2.2
        { defaultCategoryName := none,
          categories := [{ id := 0, name := none, checkFailureHandler := none,
                           commands := [{ id := 10, name := "a", alters := ["a"],
                                          categoryHint := none, categoryId := some 0,
                                          checkFailureHandler := none }] }],
          commands := [("a", { id := 10, name := "a", alters := ["a"],
                               categoryHint := none, categoryId := some 0,
                               checkFailureHandler := none })] } rfl).1 "a"
        (List.mem_singleton_self "a")
    exact h

end Hata
